import Mathlib

/-!
Verification of the factory pricing tool (src/streamlit_app.py).

Strings that carry data (model keys, cell contents) are modelled as
`List Char`; identifier-like strings (sheet names, column names, margin
modes) as `String`.  Python floats are modelled as `ℚ`; the float value
NaN, which the source uses as its missing marker, is modelled as `none`
in `Option ℚ`.  Every function below is a direct translation of the
corresponding Python function; line numbers refer to src/streamlit_app.py.
-/

set_option autoImplicit false

namespace FactoryPricing

/-- Characters removed by Python str.strip (the ASCII whitespace set). -/
def pyIsSpace (c : Char) : Bool :=
  c == ' ' || c == '\t' || c == '\n' || c == '\r' || c == '\x0b' || c == '\x0c'

/-- Python str.strip: drop leading and trailing whitespace. -/
def pyStrip (l : List Char) : List Char :=
  ((l.dropWhile pyIsSpace).reverse.dropWhile pyIsSpace).reverse

/-- Python str.replace(" ", ""): drop every space character (lines 90-91). -/
def removeSpaces (l : List Char) : List Char :=
  l.filter (fun c => c ≠ ' ')

/-- The spec wording for the lookup fallback: remove ALL whitespace.
This is the claimed behaviour, to be compared with `removeSpaces`,
which is what the source does. -/
def specStripAllWhitespace (l : List Char) : List Char :=
  l.filter (fun c => !pyIsSpace c)

/-- Value of a digit string read in base 10. -/
def digitsVal (l : List Char) : ℕ :=
  l.foldl (fun a c => 10 * a + (c.toNat - 48)) 0

/-- Python float() on an unsigned string over the characters that survive
the filter in coerce_numeric (digits, '.', '-'): digits with an optional
trailing fraction, or a bare fraction; anything else raises ValueError,
modelled as `none`. -/
def pyFloatCore (body : List Char) : Option ℚ :=
  let ip := body.takeWhile Char.isDigit
  let rest := body.dropWhile Char.isDigit
  match rest with
  | [] => if ip = [] then none else some ((digitsVal ip : ℚ))
  | '.' :: frac =>
    if (∀ c ∈ frac, c.isDigit) ∧ ¬(ip = [] ∧ frac = []) then
      some ((digitsVal ip : ℚ) + (digitsVal frac : ℚ) / 10 ^ frac.length)
    else none
  | _ => none

/-- Python float() with an optional leading minus sign. -/
def pyFloat (s : List Char) : Option ℚ :=
  match s with
  | '-' :: body => (pyFloatCore body).map (fun q => -q)
  | _ => pyFloatCore s

/-- coerce_numeric, string branch (lines 15-27): strip, remove commas,
keep only digits and characters of '.-', reject empty or sign-only
residues, then float(); ValueError is caught and yields NaN (`none`). -/
def coerce_numeric (x : List Char) : Option ℚ :=
  let s1 := pyStrip x
  let s2 := s1.filter (fun c => c ≠ ',')
  let s3 := s2.filter (fun c => c.isDigit || c == '.' || c == '-')
  if s3 = [] ∨ s3 = ['-'] ∨ s3 = ['.'] then none
  else pyFloat s3

/-- price_with_margin (lines 98-112) over exact rationals.  The first
component is the unit price (`none` models the NaN returned when the
revenue margin is ≥ 100%), the second the all-in unit cost. -/
def price_with_margin (unit_cost fixed_cost_per_order qty margin_pct : ℚ)
    (margin_mode : String) : Option ℚ × ℚ :=
  let unit_allin_cost := unit_cost + fixed_cost_per_order / max qty 1
  let m := margin_pct / 100
  if margin_mode = "Markup on cost" then
    (some (unit_allin_cost * (1 + m)), unit_allin_cost)
  else
    if 1 - m ≤ 0 then (none, unit_allin_cost)
    else (some (unit_allin_cost / (1 - m)), unit_allin_cost)

/-! ## Price sheets and lookup (get_price, lines 84-96)

A tidied sheet is a table with a MODEL key column and named value
columns; a cell is `Option ℚ` (NaN is `none`).  `cells` is an
association list from column name to cell. -/

structure SheetRow where
  model : List Char
  cells : List (String × Option ℚ)
deriving DecidableEq

structure Sheet where
  cols : List String
  rows : List SheetRow
deriving DecidableEq

/-- get_price (lines 84-96): exact match on the stripped key first, then a
fallback that removes every space character (only U+0020) from both sides;
if no row matches, or the requested column does not exist, return NaN
(`none`); otherwise the first matching row's cell. -/
def get_price (sh : Sheet) (product_col : String) (model_code : List Char) :
    Option ℚ :=
  let exact := sh.rows.filter (fun r => pyStrip r.model = pyStrip model_code)
  let found :=
    if exact.isEmpty then
      sh.rows.filter (fun r => removeSpaces r.model = removeSpaces model_code)
    else exact
  match found with
  | [] => none
  | r :: _ =>
    if product_col ∈ sh.cols then (r.cells.lookup product_col).bind id
    else none

/-! ## Sheet normalisation (tidy_sheet, lines 29-70)

Raw cells from pd.read_excel are strings, numbers or NaN. -/

inductive Cell where
  | missing : Cell
  | str : List Char → Cell
  | num : ℚ → Cell
deriving DecidableEq

instance : Inhabited Cell := ⟨Cell.missing⟩

def Cell.isMissing : Cell → Bool
  | .missing => true
  | _ => false

/-- Python str() of a cell value; str(nan) is the string "nan".  The exact
decimal rendering of a number is immaterial to the verified properties
(any whitespace-free rendering behaves identically); rationals are
rendered with toString. -/
def pyStrCell : Cell → List Char
  | .missing => ['n', 'a', 'n']
  | .str s => s
  | .num q => (toString q).toList

/-- coerce_numeric on an arbitrary cell (lines 15-27): strings take the
string branch; float(x) on a number is the number itself and on NaN is
NaN; float(None) raises and is caught, also yielding NaN. -/
def coerce_cell : Cell → Option ℚ
  | .missing => none
  | .num q => some q
  | .str s => coerce_numeric s

/-- A raw sheet as handed to tidy_sheet: a header row and data rows
(rectangular; short rows read as missing). -/
structure RawTable where
  headers : List (List Char)
  rows : List (List Cell)
deriving DecidableEq

/-- The rows kept by df.dropna(how="all") (line 36): a row survives iff
some cell is non-missing. -/
def keptRows (t : RawTable) : List (List Cell) :=
  t.rows.filter (fun r => r.any (fun c => !c.isMissing))

/-- The column positions kept by df.dropna(axis=1, how="all") (line 36):
a column survives iff some surviving row has a non-missing cell there.
With no surviving rows every column is dropped (an all-of-nothing test
is vacuously true in pandas). -/
def keptCols (t : RawTable) : List ℕ :=
  (List.range t.headers.length).filter
    (fun j => (keptRows t).any (fun r => !(r.getD j Cell.missing).isMissing))

/-- The surviving rows restricted to the surviving columns. -/
def croppedRows (t : RawTable) : List (List Cell) :=
  (keptRows t).map (fun r => (keptCols t).map (fun j => r.getD j Cell.missing))

/-- Result of tidy_sheet: canonical headers, the MODEL key of every row,
and the numeric-or-missing value cells of every row. -/
structure TidyTable where
  headers : List (List Char)
  keys : List (List Char)
  valueRows : List (List (Option ℚ))
deriving DecidableEq

/-- tidy_sheet (lines 29-70).  Dead code (the header-detection block,
lines 40-48, whose result is never read) is omitted.  Column headers are
stripped (line 50); every branch of lines 51-62 renames the first column
to MODEL, and pandas rename-by-label renames every column whose label
equals the first header.  The two `none` results model exceptions the
source raises: indexing df.columns[0] with no surviving columns
(IndexError), and df["MODEL"].str on duplicated MODEL labels
(AttributeError).  MODEL values go through str() and strip (line 65);
all other columns through coerce_numeric (lines 67-69). -/
def tidy_sheet (t : RawTable) : Option TidyTable :=
  let headers := (keptCols t).map (fun j => pyStrip (t.headers.getD j []))
  match headers with
  | [] => none
  | h0 :: hs =>
    let renamed := (h0 :: hs).map (fun h => if h = h0 then "MODEL".toList else h)
    if renamed.count "MODEL".toList ≠ 1 then none
    else
      some
        { headers := renamed
          keys := (croppedRows t).map (fun r => pyStrip (pyStrCell (r.getD 0 Cell.missing)))
          valueRows := (croppedRows t).map (fun r => (r.drop 1).map coerce_cell) }

/-! ## The pricing pipeline (lines 196-306)

Divisions in the source can raise ZeroDivisionError; every source
division is modelled with `safeDiv`, so the pipeline returns `none`
exactly when the source would crash, `some (.error w)` when it stops
early (st.stop) and `some (.ok out)` when it prices the order. -/

/-- Division that records a ZeroDivisionError as `none`. -/
def safeDiv (a b : ℚ) : Option ℚ :=
  if b = 0 then none else some (a / b)

/-- Python int() on a float: truncation toward zero. -/
def pyTrunc (q : ℚ) : ℤ :=
  if q < 0 then -⌊-q⌋ else ⌊q⌋

/-- Python round() to an integer: half-to-even (banker's) rounding,
modelled exactly on rationals. -/
def roundHalfEven (x : ℚ) : ℤ :=
  let f := ⌊x⌋
  if x - f < 1 / 2 then f
  else if 1 / 2 < x - f then f + 1
  else if f % 2 = 0 then f else f + 1

/-- Python round(x, n). -/
def pyRound (n : ℕ) (x : ℚ) : ℚ :=
  (roundHalfEven (x * 10 ^ n) : ℚ) / 10 ^ n

/-- One line of the order editor: sheet name, value column, model key and
quantity (the source reads qty as float(... or 0)). -/
structure OrderLine where
  sheet : String
  productCol : String
  model : List Char
  qty : ℚ
deriving DecidableEq

/-- One row of the tier table, after the upstream sort by min_qty
(line 155; the sort order does not affect any verified property). -/
structure Tier where
  minQty : ℚ
  marginMode : String
  marginPct : ℚ
deriving DecidableEq

/-- The sidebar configuration feeding the pipeline. -/
structure Config where
  sheets : List (String × Sheet)
  discount : ℚ
  fixedTotal : ℚ
  tiers : List Tier
  targetMarginMode : String
  targetMarginPct : ℚ

/-- One row of calc_df (lines 200-226): looked-up face price, unit cost
after the discount, quantity. -/
structure CalcRow where
  line : ℕ
  base : Option ℚ
  cost : Option ℚ
  qty : ℚ
deriving DecidableEq

/-- Lines 202-226.  The sheet must exist (line 204), otherwise the face
price is NaN; an invalid product column falls back to the first non-MODEL
column (lines 211-213), and if none exists get_price is called with
product_col None, which matches no column, so the result is NaN either
way.  cost_unit = (base_price or 0) * factory_discount: for floats this
is the identity composed with the product (NaN is truthy, 0 maps to 0). -/
def calcRow (cfg : Config) (i : ℕ) (l : OrderLine) : CalcRow :=
  let base : Option ℚ :=
    match cfg.sheets.lookup l.sheet with
    | none => none
    | some sh =>
      match (if l.productCol ∈ sh.cols then some l.productCol
             else (sh.cols.filter (fun c => c ≠ "MODEL")).head?) with
      | none => none
      | some c => get_price sh c l.model
  { line := i + 1, base, cost := base.map (fun b => b * cfg.discount), qty := l.qty }

def calcRows (cfg : Config) (lines : List OrderLine) : List CalcRow :=
  (lines.enum).map (fun p => calcRow cfg p.1 p.2)

/-- total_qty (lines 201, 216). -/
def totalQty (lines : List OrderLine) : ℚ :=
  (lines.map (fun l => l.qty)).sum

/-- price_with_margin with every division checked, and with a NaN unit
cost propagated: NaN + x = NaN, NaN * x = NaN, NaN / x = NaN, so a NaN
cost yields NaN price and NaN all-in cost in both modes. -/
def pwmChecked (unit_cost : Option ℚ) (fixed qty margin_pct : ℚ)
    (margin_mode : String) : Option (Option ℚ × Option ℚ) :=
  match unit_cost with
  | none => some (none, none)
  | some uc => do
    let d ← safeDiv fixed (max qty 1)
    let unit_allin_cost := uc + d
    let m := margin_pct / 100
    if margin_mode = "Markup on cost" then
      some (some (unit_allin_cost * (1 + m)), some unit_allin_cost)
    else
      if 1 - m ≤ 0 then some (none, some unit_allin_cost)
      else do
        let p ← safeDiv unit_allin_cost (1 - m)
        some (some p, some unit_allin_cost)

/-- price_with_margin lifted over a possibly-NaN unit cost (the
denotation of `pwmChecked`; no division by zero is possible). -/
def pwmOpt (unit_cost : Option ℚ) (fixed qty margin_pct : ℚ)
    (margin_mode : String) : Option ℚ × Option ℚ :=
  match unit_cost with
  | none => (none, none)
  | some uc =>
    let pa := price_with_margin uc fixed qty margin_pct margin_mode
    (pa.1, some pa.2)

/-- One row of the breakeven table (lines 239-241): the per-unit fixed
cost allocation fixed_cost_total / total_qty — the same value for every
line — and the rounded breakeven price. -/
structure BreakevenRow where
  line : ℕ
  alloc : ℚ
  breakeven : Option ℚ
deriving DecidableEq

def breakevenRow (cfg : Config) (tq : ℚ) (r : CalcRow) : Option BreakevenRow := do
  let alloc ← safeDiv cfg.fixedTotal tq
  some { line := r.line, alloc, breakeven := r.cost.map (fun c => pyRound 4 (c + alloc)) }

/-- Denotation of `breakevenRow` when total quantity is nonzero. -/
def breakevenRowPure (cfg : Config) (tq : ℚ) (r : CalcRow) : BreakevenRow :=
  { line := r.line
    alloc := cfg.fixedTotal / tq
    breakeven := r.cost.map (fun c => pyRound 4 (c + cfg.fixedTotal / tq)) }

/-- One row of the tier preview (lines 248-273). -/
structure TierRow where
  line : ℕ
  minQty : ℤ
  mode : String
  marginPct : ℚ
  price : Option ℚ
  tierBreakeven : Option ℚ
deriving DecidableEq

def tierRow (cfg : Config) (tq : ℚ) (r : CalcRow) (t : Tier) : Option TierRow := do
  let minQ : ℤ := pyTrunc t.minQty
  let share ← safeDiv r.qty (max tq 1)
  let pa ← pwmChecked r.cost (cfg.fixedTotal * share) ((max minQ 1 : ℤ) : ℚ)
    t.marginPct t.marginMode
  some { line := r.line, minQty := minQ, mode := t.marginMode, marginPct := t.marginPct
         price := pa.1.map (pyRound 4), tierBreakeven := pa.2.map (pyRound 4) }

/-- Denotation of `tierRow` (its divisors are floored at 1, so it never
fails). -/
def tierRowPure (cfg : Config) (tq : ℚ) (r : CalcRow) (t : Tier) : TierRow :=
  let minQ : ℤ := pyTrunc t.minQty
  let fixedShare := cfg.fixedTotal * (r.qty / max tq 1)
  let pa := pwmOpt r.cost fixedShare ((max minQ 1 : ℤ) : ℚ) t.marginPct t.marginMode
  { line := r.line, minQty := minQ, mode := t.marginMode, marginPct := t.marginPct
    price := pa.1.map (pyRound 4), tierBreakeven := pa.2.map (pyRound 4) }

/-- One row of the whole-order summary (lines 284-301).  `fixedShare` is
the fixed_cost_per_order argument passed to price_with_margin (line 288),
`allocPerUnit` the per-unit fixed-cost component of the all-in cost
(fixedShare divided by the floored quantity actually used), and
`priceExact` the unrounded unit price — observations of values the
source computes, kept as fields so they can be stated about. -/
structure OrderRow where
  line : ℕ
  qtyInt : ℤ
  qty : ℚ
  fixedShare : ℚ
  allocPerUnit : ℚ
  priceExact : Option ℚ
  breakeven : Option ℚ
  price : Option ℚ
  subtotal : Option ℚ
deriving DecidableEq

def orderRow (cfg : Config) (tq : ℚ) (r : CalcRow) : Option OrderRow := do
  let share ← safeDiv r.qty (max tq 1)
  let fixedShare := cfg.fixedTotal * share
  let qtyI : ℤ := pyTrunc r.qty
  let qtyUsed : ℤ := max qtyI 1
  let pa ← pwmChecked r.cost fixedShare ((qtyUsed : ℤ) : ℚ) cfg.targetMarginPct
    cfg.targetMarginMode
  some { line := r.line, qtyInt := qtyI, qty := r.qty, fixedShare
         allocPerUnit := fixedShare / max (qtyUsed : ℚ) 1
         priceExact := pa.1
         breakeven := pa.2.map (pyRound 4)
         price := pa.1.map (pyRound 4)
         subtotal := pa.1.map (fun p => pyRound 2 (p * r.qty)) }

/-- Denotation of `orderRow` (its divisors are floored at 1, so it never
fails). -/
def orderRowPure (cfg : Config) (tq : ℚ) (r : CalcRow) : OrderRow :=
  let fixedShare := cfg.fixedTotal * (r.qty / max tq 1)
  let qtyI : ℤ := pyTrunc r.qty
  let qtyUsed : ℤ := max qtyI 1
  let pa := pwmOpt r.cost fixedShare ((qtyUsed : ℤ) : ℚ) cfg.targetMarginPct
    cfg.targetMarginMode
  { line := r.line, qtyInt := qtyI, qty := r.qty, fixedShare
    allocPerUnit := fixedShare / max (qtyUsed : ℚ) 1
    priceExact := pa.1
    breakeven := pa.2.map (pyRound 4)
    price := pa.1.map (pyRound 4)
    subtotal := pa.1.map (fun p => pyRound 2 (p * r.qty)) }

/-- The displayed tables and the order total. -/
structure Output where
  calcTable : List CalcRow
  breakevens : List BreakevenRow
  tierTable : List TierRow
  orderRows : List OrderRow
  total : ℚ

/-- Effectful traversal of the source's row-building for loops: the
first failing row aborts (models an uncaught exception). -/
def rowsM {α β : Type} (f : α → Option β) : List α → Option (List β)
  | [] => some []
  | a :: l => do
    let b ← f a
    let bs ← rowsM f l
    some (b :: bs)

/-- The computation from the order editor to the order summary
(lines 196-306).  `some (.error w)` models st.stop() — on an empty order
silently (lines 197-198), on zero total quantity with the warning of
line 236; `none` would model an uncaught ZeroDivisionError. -/
def pipeline (cfg : Config) (lines : List OrderLine) :
    Option (Except String Output) :=
  if lines = [] then some (.error "empty order: stopped")
  else
    let calcT := calcRows cfg lines
    let tq := (calcT.map (fun r => r.qty)).sum
    if tq ≤ 0 then some (.error "数量为0，无法计算。")
    else do
      let brs ← rowsM (breakevenRow cfg tq) calcT
      let trs ← rowsM (fun r => rowsM (tierRow cfg tq r) cfg.tiers) calcT
      let ors ← rowsM (orderRow cfg tq) calcT
      let total := (ors.map (fun r => r.subtotal.getD 0)).sum
      some (.ok { calcTable := calcT, breakevens := brs, tierTable := trs.flatten
                  orderRows := ors, total := total })

/-- The priced output when the guards pass (the denotation of the
success branch of `pipeline`). -/
def outputPure (cfg : Config) (lines : List OrderLine) : Output :=
  let calcT := calcRows cfg lines
  let tq := (calcT.map (fun r => r.qty)).sum
  let ors := calcT.map (orderRowPure cfg tq)
  { calcTable := calcT
    breakevens := calcT.map (breakevenRowPure cfg tq)
    tierTable := (calcT.map (fun r => cfg.tiers.map (tierRowPure cfg tq r))).flatten
    orderRows := ors
    total := (ors.map (fun r => r.subtotal.getD 0)).sum }

/-! ## Statement-side constructions and concrete test data -/

/-- Digit groups joined by single comma separators, e.g.
withCommas [[49], [50,51,52]] is the string 1,234 — the shape of a
number written with thousands separators. -/
def withCommas : List (List Char) → List Char
  | [] => []
  | [g] => g
  | g :: gs => g ++ ',' :: withCommas gs

/-- The textual fraction part: nothing, or a dot followed by digits. -/
def fracPart : Option (List Char) → List Char
  | none => []
  | some f => '.' :: f

/-- A numeric string with thousands separators, an optional fraction and
trailing junk: the input class of the coercion claim. -/
def numWithJunk (sgn : Bool) (groups : List (List Char))
    (frac : Option (List Char)) (junk : List Char) : List Char :=
  (if sgn then ['-'] else []) ++ withCommas groups ++ fracPart frac ++ junk

/-- The number such a string denotes. -/
def numValue (sgn : Bool) (groups : List (List Char))
    (frac : Option (List Char)) : ℚ :=
  let ipart : ℚ := (digitsVal groups.flatten : ℚ)
  let v : ℚ :=
    match frac with
    | none => ipart
    | some f => ipart + (digitsVal f : ℚ) / 10 ^ f.length
  if sgn then -v else v

/-- A one-row price sheet: MODEL 4-01 with price 10 in column P. -/
def exC2Sheet : Sheet :=
  { cols := ["MODEL", "P"]
    rows := [{ model := "4-01".toList, cells := [("P", some 10)] }] }

/-- A sheet with two rows sharing the key A, with different prices. -/
def dupSheet : Sheet :=
  { cols := ["MODEL", "P"]
    rows := [{ model := ['A'], cells := [("P", some 1)] },
             { model := ['A'], cells := [("P", some 2)] }] }

/-- A concrete configuration: discount 0.5, fixed cost pool 8, target
margin 0% on revenue. -/
def exCfg : Config :=
  { sheets := [("S", exC2Sheet)], discount := 1 / 2, fixedTotal := 8
    tiers := [], targetMarginMode := "Revenue margin", targetMarginPct := 0 }

/-- Two lines of the same model with different quantities 1 and 3. -/
def exC1Lines : List OrderLine :=
  [{ sheet := "S", productCol := "P", model := "4-01".toList, qty := 1 },
   { sheet := "S", productCol := "P", model := "4-01".toList, qty := 3 }]

/-- A single line with quantity 0. -/
def exC7Lines : List OrderLine :=
  [{ sheet := "S", productCol := "P", model := "4-01".toList, qty := 0 }]

/-- Two lines: the first with a key absent from the sheet, the second
resolvable; equal quantities. -/
def exC9Lines : List OrderLine :=
  [{ sheet := "S", productCol := "P", model := "XX".toList, qty := 2 },
   { sheet := "S", productCol := "P", model := "4-01".toList, qty := 2 }]

/-- A raw sheet whose only cells are a padded key and a dirty numeric
string, under a recognised synonym header. -/
def exRaw : RawTable :=
  { headers := ["型号".toList, "P".toList]
    rows := [[Cell.str " 4-01 ".toList, Cell.str "1,234kg".toList]] }

/-- The tidied form of exRaw. -/
def exTidy : TidyTable :=
  { headers := ["MODEL".toList, "P".toList]
    keys := ["4-01".toList]
    valueRows := [[some 1234]] }

/-- The character class kept by the filter of coerce_numeric (line 21):
digits and the characters of '.-'. -/
def numP (c : Char) : Bool :=
  c.isDigit || c == '.' || c == '-'

/-! ## Helper lemmas -/

theorem takeWhile_all {α : Type} (p : α → Bool) :
    ∀ l : List α, (∀ c ∈ l, p c = true) → l.takeWhile p = l := by
  intro l
  induction l with
  | nil => intro _; rfl
  | cons a t ih =>
    intro h
    rw [List.takeWhile_cons, h a (List.mem_cons_self a t)]
    simp only [if_true]
    rw [ih (fun x hx => h x (List.mem_cons_of_mem a hx))]

theorem dropWhile_all {α : Type} (p : α → Bool) :
    ∀ l : List α, (∀ c ∈ l, p c = true) → l.dropWhile p = [] := by
  intro l
  induction l with
  | nil => intro _; rfl
  | cons a t ih =>
    intro h
    rw [List.dropWhile_cons, h a (List.mem_cons_self a t)]
    simp only [if_true]
    exact ih (fun x hx => h x (List.mem_cons_of_mem a hx))

theorem takeWhile_append_all {α : Type} (p : α → Bool) :
    ∀ (l r : List α), (∀ c ∈ l, p c = true) →
      (l ++ r).takeWhile p = l ++ r.takeWhile p := by
  intro l r
  induction l with
  | nil => intro _; rfl
  | cons a t ih =>
    intro h
    rw [List.cons_append, List.takeWhile_cons, h a (List.mem_cons_self a t)]
    simp only [if_true]
    rw [ih (fun x hx => h x (List.mem_cons_of_mem a hx))]
    rfl

theorem dropWhile_append_all {α : Type} (p : α → Bool) :
    ∀ (l r : List α), (∀ c ∈ l, p c = true) →
      (l ++ r).dropWhile p = r.dropWhile p := by
  intro l r
  induction l with
  | nil => intro _; rfl
  | cons a t ih =>
    intro h
    rw [List.cons_append, List.dropWhile_cons, h a (List.mem_cons_self a t)]
    simp only [if_true]
    exact ih (fun x hx => h x (List.mem_cons_of_mem a hx))

theorem filter_dropWhile {α : Type} (p q : α → Bool)
    (hpq : ∀ c, q c = true → p c = false) :
    ∀ l : List α, (l.dropWhile q).filter p = l.filter p := by
  intro l
  induction l with
  | nil => rfl
  | cons a t ih =>
    rw [List.dropWhile_cons]
    by_cases hq : q a = true
    · rw [if_pos hq, ih, List.filter_cons, hpq a hq]
      simp only [Bool.false_eq_true, if_false]
    · rw [if_neg hq]

theorem filter_reverse_eq {α : Type} (p : α → Bool) (l : List α) :
    l.reverse.filter p = (l.filter p).reverse :=
  List.filter_reverse p l

theorem filter_pyStrip (p : Char → Bool)
    (hws : ∀ c, pyIsSpace c = true → p c = false) (l : List Char) :
    (pyStrip l).filter p = l.filter p := by
  rw [pyStrip, filter_reverse_eq, filter_dropWhile p pyIsSpace hws,
    filter_reverse_eq, List.reverse_reverse, filter_dropWhile p pyIsSpace hws]

theorem numP_of_space (c : Char) (hc : pyIsSpace c = true) : numP c = false := by
  have h6 := hc
  simp only [pyIsSpace, Bool.or_eq_true, beq_iff_eq] at h6
  rcases h6 with ((((rfl | rfl) | rfl) | rfl) | rfl) | rfl <;> decide

/-- The three filters of coerce_numeric collapse to one filter by the
character class numP: the whitespace strip removes no numP character,
and the comma removal is subsumed because numP rejects commas. -/
theorem coerce_residue (x : List Char) :
    coerce_numeric x
      = if x.filter numP = [] ∨ x.filter numP = ['-'] ∨ x.filter numP = ['.']
        then none else pyFloat (x.filter numP) := by
  have h1 : ∀ a : Char,
      ((a.isDigit || a == '.' || a == '-') && decide (a ≠ ',')) = numP a := by
    intro a
    by_cases h : a = ','
    · subst h; decide
    · simp [numP, h]
  have hchain : ((pyStrip x).filter (fun c => c ≠ ',')).filter
      (fun c => c.isDigit || c == '.' || c == '-') = x.filter numP := by
    rw [List.filter_filter]
    rw [show (fun a => (a.isDigit || a == '.' || a == '-') && decide (a ≠ ','))
        = numP from funext h1]
    exact filter_pyStrip numP numP_of_space x
  simp only [coerce_numeric, hchain]

theorem ne_degenerate_of_digit (l : List Char)
    (h : ∃ c ∈ l, c.isDigit = true) :
    ¬(l = [] ∨ l = ['-'] ∨ l = ['.']) := by
  obtain ⟨c, hc, hd⟩ := h
  rintro (rfl | rfl | rfl)
  · cases hc
  · rcases List.mem_singleton.mp hc with rfl
    exact absurd hd (by decide)
  · rcases List.mem_singleton.mp hc with rfl
    exact absurd hd (by decide)

theorem filter_withCommas (p : Char → Bool) (hc : p ',' = false) :
    ∀ groups : List (List Char),
      (∀ g ∈ groups, ∀ c ∈ g, p c = true) →
      (withCommas groups).filter p = groups.flatten := by
  intro groups
  induction groups with
  | nil => intro _; rfl
  | cons g gs ih =>
    intro h
    cases gs with
    | nil =>
      show g.filter p = List.flatten [g]
      rw [List.filter_eq_self.mpr (h g (List.mem_cons_self _ _))]
      simp
    | cons g2 gs2 =>
      show (g ++ ',' :: withCommas (g2 :: gs2)).filter p = (g :: g2 :: gs2).flatten
      rw [List.filter_append, List.filter_cons, hc]
      simp only [Bool.false_eq_true, if_false]
      rw [List.filter_eq_self.mpr (h g (List.mem_cons_self _ _)),
        ih (fun g' hg' => h g' (List.mem_cons_of_mem _ hg'))]
      simp

theorem pyFloat_cons_of_ne (c : Char) (l : List Char) (h : c ≠ '-') :
    pyFloat (c :: l) = pyFloatCore (c :: l) := by
  unfold pyFloat
  split
  · next heq =>
    injection heq with h1 _
    exact absurd h1 h
  · rfl

theorem pyFloatCore_int (ds : List Char) (hds : ∀ c ∈ ds, c.isDigit = true)
    (hne : ds ≠ []) : pyFloatCore ds = some ((digitsVal ds : ℚ)) := by
  simp only [pyFloatCore, takeWhile_all Char.isDigit ds hds,
    dropWhile_all Char.isDigit ds hds, if_neg hne]

theorem pyFloatCore_frac (ds f : List Char)
    (hds : ∀ c ∈ ds, c.isDigit = true) (hf : ∀ c ∈ f, c.isDigit = true)
    (hne : ds ≠ []) :
    pyFloatCore (ds ++ '.' :: f)
      = some ((digitsVal ds : ℚ) + (digitsVal f : ℚ) / 10 ^ f.length) := by
  have htw : ('.' :: f).takeWhile Char.isDigit = [] := rfl
  have hdw : ('.' :: f).dropWhile Char.isDigit = '.' :: f := rfl
  simp only [pyFloatCore, takeWhile_append_all Char.isDigit ds ('.' :: f) hds,
    dropWhile_append_all Char.isDigit ds ('.' :: f) hds, htw, hdw,
    List.append_nil]
  rw [if_pos ⟨hf, fun hcon => hne hcon.1⟩]

theorem pyFloatCore_no_digit (l : List Char)
    (h : ∀ c ∈ l, c = '.' ∨ c = '-') : pyFloatCore l = none := by
  cases l with
  | nil => rfl
  | cons a t =>
    rcases h a (List.mem_cons_self a t) with rfl | rfl
    · have hform : pyFloatCore ('.' :: t)
          = if (∀ c ∈ t, c.isDigit = true) ∧
              ¬(('.' :: t).takeWhile Char.isDigit = [] ∧ t = [])
            then some ((digitsVal (('.' :: t).takeWhile Char.isDigit) : ℚ)
              + (digitsVal t : ℚ) / 10 ^ t.length)
            else none := rfl
      rw [hform, if_neg]
      rintro ⟨hall, hne⟩
      cases t with
      | nil => exact hne ⟨rfl, rfl⟩
      | cons b t2 =>
        rcases h b (List.mem_cons_of_mem _ (List.mem_cons_self b t2))
          with rfl | rfl
        · exact absurd (hall '.' (List.mem_cons_self _ _)) (by decide)
        · exact absurd (hall '-' (List.mem_cons_self _ _)) (by decide)
    · rfl

theorem pyFloat_no_digit (l : List Char)
    (h : ∀ c ∈ l, c = '.' ∨ c = '-') : pyFloat l = none := by
  cases l with
  | nil => rfl
  | cons a t =>
    rcases h a (List.mem_cons_self a t) with rfl | rfl
    · rw [pyFloat_cons_of_ne '.' t (by decide)]
      exact pyFloatCore_no_digit _ h
    · show (pyFloatCore t).map (fun q => -q) = none
      rw [pyFloatCore_no_digit t
        (fun c hc => h c (List.mem_cons_of_mem _ hc))]
      rfl

theorem rowsM_eq_map {α β : Type} (f : α → Option β) (g : α → β) :
    ∀ l : List α, (∀ a ∈ l, f a = some (g a)) → rowsM f l = some (l.map g) := by
  intro l
  induction l with
  | nil => intro _; rfl
  | cons a t ih =>
    intro h
    have ha := h a (List.mem_cons_self a t)
    have ht := ih (fun x hx => h x (List.mem_cons_of_mem a hx))
    simp [rowsM, ha, ht]

theorem max_one_ne_zero (q : ℚ) : max q 1 ≠ 0 :=
  ne_of_gt (lt_of_lt_of_le one_pos (le_max_right q 1))

theorem safeDiv_of_ne (a b : ℚ) (h : b ≠ 0) : safeDiv a b = some (a / b) := by
  simp [safeDiv, h]

theorem pwmChecked_eq (uc : Option ℚ) (f q m : ℚ) (mode : String) :
    pwmChecked uc f q m mode = some (pwmOpt uc f q m mode) := by
  cases uc with
  | none => rfl
  | some c =>
    rw [pwmChecked, pwmOpt, safeDiv_of_ne _ _ (max_one_ne_zero q)]
    simp only [Option.bind_some, price_with_margin, Option.some_bind]
    by_cases hm : mode = "Markup on cost"
    · simp [hm]
    · simp only [if_neg hm]
      by_cases hz : 1 - m / 100 ≤ 0
      · simp [hz]
      · have : 1 - m / 100 ≠ 0 := fun h0 => hz (le_of_eq h0)
        simp [hz, safeDiv_of_ne _ _ this]

theorem breakevenRow_eq (cfg : Config) (tq : ℚ) (r : CalcRow) (htq : tq ≠ 0) :
    breakevenRow cfg tq r = some (breakevenRowPure cfg tq r) := by
  rw [breakevenRow, breakevenRowPure, safeDiv_of_ne _ _ htq]
  rfl

theorem tierRow_eq (cfg : Config) (tq : ℚ) (r : CalcRow) (t : Tier) :
    tierRow cfg tq r t = some (tierRowPure cfg tq r t) := by
  rw [tierRow, tierRowPure, safeDiv_of_ne _ _ (max_one_ne_zero tq)]
  simp [pwmChecked_eq]

theorem orderRow_eq (cfg : Config) (tq : ℚ) (r : CalcRow) :
    orderRow cfg tq r = some (orderRowPure cfg tq r) := by
  rw [orderRow, orderRowPure, safeDiv_of_ne _ _ (max_one_ne_zero tq)]
  simp [pwmChecked_eq]

theorem calcRow_qty (cfg : Config) (i : ℕ) (l : OrderLine) :
    (calcRow cfg i l).qty = l.qty := rfl

theorem map_enumFrom_congr {α β : Type} (f : ℕ × α → β) (g : α → β) :
    ∀ (n : ℕ) (l : List α), (∀ i a, a ∈ l → f (i, a) = g a) →
      (List.enumFrom n l).map f = l.map g := by
  intro n l
  induction l generalizing n with
  | nil => intro _; rfl
  | cons a t ih =>
    intro h
    simp only [List.enumFrom, List.map_cons]
    rw [h n a (List.mem_cons_self a t),
      ih (n + 1) (fun i x hx => h i x (List.mem_cons_of_mem a hx))]

theorem calcRows_map {α : Type} (cfg : Config) (lines : List OrderLine)
    (f : CalcRow → α) (g : OrderLine → α)
    (h : ∀ i l, l ∈ lines → f (calcRow cfg i l) = g l) :
    (calcRows cfg lines).map f = lines.map g := by
  rw [calcRows, List.map_map, List.enum]
  exact map_enumFrom_congr _ g 0 lines (fun i a ha => h i a ha)

theorem calcRows_qty_sum (cfg : Config) (lines : List OrderLine) :
    ((calcRows cfg lines).map (fun r => r.qty)).sum = totalQty lines := by
  rw [calcRows_map cfg lines _ (fun l => l.qty) (fun i l _ => rfl)]
  rfl

theorem calcRow_cost (cfg : Config) (i : ℕ) (l : OrderLine) :
    (calcRow cfg i l).cost
      = (calcRow cfg i l).base.map (fun b => b * cfg.discount) := rfl

theorem orderRowPure_fixedShare (cfg : Config) (tq : ℚ) (r : CalcRow) :
    (orderRowPure cfg tq r).fixedShare
      = cfg.fixedTotal * (r.qty / max tq 1) := rfl

theorem orderRowPure_allocPerUnit (cfg : Config) (tq : ℚ) (r : CalcRow) :
    (orderRowPure cfg tq r).allocPerUnit
      = cfg.fixedTotal * (r.qty / max tq 1)
        / max ((max (pyTrunc r.qty) 1 : ℤ) : ℚ) 1 := rfl

theorem orderRowPure_priceExact (cfg : Config) (tq : ℚ) (r : CalcRow) :
    (orderRowPure cfg tq r).priceExact
      = (pwmOpt r.cost (cfg.fixedTotal * (r.qty / max tq 1))
          ((max (pyTrunc r.qty) 1 : ℤ) : ℚ) cfg.targetMarginPct
          cfg.targetMarginMode).1 := rfl

theorem breakevenRowPure_alloc (cfg : Config) (tq : ℚ) (r : CalcRow) :
    (breakevenRowPure cfg tq r).alloc = cfg.fixedTotal / tq := rfl

theorem pyTrunc_cast_of_int_ge_one (q : ℚ) (h1 : 1 ≤ q) (hd : q.den = 1) :
    ((pyTrunc q : ℤ) : ℚ) = q ∧ 1 ≤ pyTrunc q := by
  have hq0 : ¬q < 0 := not_lt.mpr (le_trans zero_le_one h1)
  have hnum : (q.num : ℚ) = q := Rat.coe_int_num_of_den_eq_one hd
  have hfl : ⌊q⌋ = q.num := by
    conv_lhs => rw [← hnum]
    exact Int.floor_intCast q.num
  rw [pyTrunc, if_neg hq0, hfl]
  refine ⟨hnum, ?_⟩
  have : (1 : ℚ) ≤ (q.num : ℚ) := by rw [hnum]; exact h1
  exact_mod_cast this

theorem pipeline_ok (cfg : Config) (lines : List OrderLine)
    (h0 : lines ≠ []) (h1 : 0 < totalQty lines) :
    pipeline cfg lines = some (.ok (outputPure cfg lines)) := by
  have htq := calcRows_qty_sum cfg lines
  have hbr : rowsM (breakevenRow cfg (totalQty lines)) (calcRows cfg lines)
      = some ((calcRows cfg lines).map (breakevenRowPure cfg (totalQty lines))) :=
    rowsM_eq_map _ _ _ (fun r _ => breakevenRow_eq cfg _ r (ne_of_gt h1))
  have htr : rowsM (fun r => rowsM (tierRow cfg (totalQty lines) r) cfg.tiers)
        (calcRows cfg lines)
      = some ((calcRows cfg lines).map
          (fun r => cfg.tiers.map (tierRowPure cfg (totalQty lines) r))) :=
    rowsM_eq_map _ _ _
      (fun r _ => rowsM_eq_map _ _ _ (fun t _ => tierRow_eq cfg _ r t))
  have hor : rowsM (orderRow cfg (totalQty lines)) (calcRows cfg lines)
      = some ((calcRows cfg lines).map (orderRowPure cfg (totalQty lines))) :=
    rowsM_eq_map _ _ _ (fun r _ => orderRow_eq cfg _ r)
  simp only [pipeline, outputPure, if_neg h0, htq, if_neg (not_le.mpr h1),
    hbr, htr, hor, Option.some_bind]
  rfl

theorem pipeline_zero (cfg : Config) (lines : List OrderLine)
    (h0 : lines ≠ []) (h1 : totalQty lines ≤ 0) :
    pipeline cfg lines = some (.error "数量为0，无法计算。") := by
  simp only [pipeline, if_neg h0, calcRows_qty_sum, if_pos h1]

theorem sum_getD_eq_sum_filterMap {α : Type} (f : α → Option ℚ) :
    ∀ l : List α, (l.map (fun a => (f a).getD 0)).sum = (l.filterMap f).sum := by
  intro l
  induction l with
  | nil => rfl
  | cons a t ih =>
    cases hfa : f a with
    | none => simp [hfa, ih]
    | some v => simp [hfa, ih]

/-! ## Claims about price_with_margin -/

/-- C3: price_with_margin computes unit_allin_cost = unit_cost +
fixed_cost_per_order / max(qty, 1); in cost-markup mode it returns
unit_allin_cost * (1 + margin_pct/100); in revenue-margin mode it
returns unit_allin_cost / (1 - margin_pct/100) when margin_pct < 100
and a missing result when margin_pct ≥ 100. -/
theorem C3_price_with_margin (uc f q m : ℚ) :
    (price_with_margin uc f q m "Markup on cost"
      = (some ((uc + f / max q 1) * (1 + m / 100)), uc + f / max q 1)) ∧
    (m < 100 → price_with_margin uc f q m "Revenue margin"
      = (some ((uc + f / max q 1) / (1 - m / 100)), uc + f / max q 1)) ∧
    (100 ≤ m → price_with_margin uc f q m "Revenue margin"
      = (none, uc + f / max q 1)) := by
  refine ⟨?_, ?_, ?_⟩
  · rw [price_with_margin, if_pos rfl]
  · intro hm
    have h1 : ¬(1 - m / 100 ≤ 0) := by push_neg; linarith
    simp [price_with_margin, h1]
  · intro hm
    have h1 : 1 - m / 100 ≤ 0 := by linarith
    simp [price_with_margin, h1]

/-- Witness for C3 at the spec's own scenario: cost 50, fixed 700 over
qty 1000, margin 25% on revenue gives 50.7 / 0.75 = 67.6; margin 120%
gives a missing price. -/
theorem C3_witness :
    price_with_margin 50 700 1000 25 "Revenue margin" = (some (338 / 5), 507 / 10) ∧
    price_with_margin 50 700 1000 120 "Revenue margin"
      = (none, 50 + 700 / max (1000 : ℚ) 1) := by
  have hmax : max (1000 : ℚ) 1 = 1000 := max_eq_left (by norm_num)
  constructor
  · have h := (C3_price_with_margin 50 700 1000 25).2.1 (by norm_num)
    rw [h, hmax]; norm_num
  · exact (C3_price_with_margin 50 700 1000 120).2.2 (by norm_num)

/-- C10: for every margin_mode string other than exactly "Markup on
cost", price_with_margin silently behaves as revenue-margin mode — the
result is identical to mode "Revenue margin": unit_allin_cost /
(1 - margin_pct/100), or missing when margin_pct ≥ 100. -/
theorem C10_unknown_mode (uc f q m : ℚ) (mode : String)
    (h : mode ≠ "Markup on cost") :
    price_with_margin uc f q m mode = price_with_margin uc f q m "Revenue margin" ∧
    price_with_margin uc f q m mode
      = (if 100 ≤ m then none else some ((uc + f / max q 1) / (1 - m / 100)),
         uc + f / max q 1) := by
  constructor
  · simp [price_with_margin, if_neg h]
  · by_cases hm : 100 ≤ m
    · have h1 : 1 - m / 100 ≤ 0 := by linarith
      simp [price_with_margin, if_neg h, h1, hm]
    · have h1 : ¬(1 - m / 100 ≤ 0) := by push_neg; linarith [lt_of_not_le hm]
      simp [price_with_margin, if_neg h, h1, hm]

/-- Witness for C10 at the misspelt mode markup on cost (lower case): it
prices exactly as revenue margin at 50%, doubling the cost 10 to 20. -/
theorem C10_witness :
    price_with_margin 10 0 1 50 "markup on cost" = (some 20, 10) := by
  have h := (C10_unknown_mode 10 0 1 50 "markup on cost" (by decide)).2
  rw [h, if_neg (by norm_num : ¬(100 : ℚ) ≤ 50)]
  norm_num

/-- C4 counterexample: at margin_pct = -100 in cost-markup mode the
source returns price 0 with all-in cost 1, and the claimed identity
price / (1 + margin/100) = unit_allin_cost fails there: its divisor
1 + (-100)/100 is zero (evaluating it raises ZeroDivisionError in
Python; under the total division of ℚ the left side is 0 ≠ 1). -/
theorem C4_counterexample :
    price_with_margin 1 0 1 (-100) "Markup on cost" = (some 0, 1) ∧
    (0 : ℚ) / (1 + (-100) / 100)
      ≠ (price_with_margin 1 0 1 (-100) "Markup on cost").2 := by
  have h : price_with_margin 1 0 1 (-100) "Markup on cost" = (some 0, 1) := by
    rw [price_with_margin, if_pos rfl]
    norm_num
  refine ⟨h, ?_⟩
  rw [h]
  norm_num

/-- C4 (amended): the two margin conventions invert exactly over exact
arithmetic: for qty ≥ 1, in revenue-margin mode with margin < 100 the
returned price satisfies price * (1 - margin/100) = unit_allin_cost,
and in cost-markup mode with margin ≠ -100 (where the claimed identity
divides by zero) the returned price satisfies
price / (1 + margin/100) = unit_allin_cost. -/
theorem C4_margin_inversion (uc f q m : ℚ) (hq : 1 ≤ q) :
    (m < 100 → ∀ p, (price_with_margin uc f q m "Revenue margin").1 = some p →
      p * (1 - m / 100) = (price_with_margin uc f q m "Revenue margin").2) ∧
    (m ≠ -100 → ∀ p, (price_with_margin uc f q m "Markup on cost").1 = some p →
      p / (1 + m / 100) = (price_with_margin uc f q m "Markup on cost").2) := by
  constructor
  · intro hm p hp
    have h1 : ¬(1 - m / 100 ≤ 0) := by push_neg; linarith
    have h2 : (1 : ℚ) - m / 100 ≠ 0 := fun h0 => h1 (le_of_eq h0)
    have hpw : price_with_margin uc f q m "Revenue margin"
        = (some ((uc + f / max q 1) / (1 - m / 100)), uc + f / max q 1) := by
      simp [price_with_margin, h1]
    rw [hpw] at hp
    have hp2 : p = (uc + f / max q 1) / (1 - m / 100) :=
      (Option.some.inj hp).symm
    rw [hpw, hp2]
    exact div_mul_cancel₀ _ h2
  · intro hm p hp
    have h2 : (1 : ℚ) + m / 100 ≠ 0 := by
      intro h0
      apply hm
      have h3 : m / 100 = -1 := by linarith
      have h4 : m = -1 * 100 := (div_eq_iff (by norm_num : (100 : ℚ) ≠ 0)).mp h3
      linarith
    have hpw : price_with_margin uc f q m "Markup on cost"
        = (some ((uc + f / max q 1) * (1 + m / 100)), uc + f / max q 1) := by
      rw [price_with_margin, if_pos rfl]
    rw [hpw] at hp
    have hp2 : p = (uc + f / max q 1) * (1 + m / 100) :=
      (Option.some.inj hp).symm
    rw [hpw, hp2]
    exact mul_div_cancel_right₀ _ h2

/-- Witness for C4 at cost 3, fixed 4, qty 2, margin 50%: the revenue
price 10 recovers the all-in cost 5 through 10 * 0.5, and the markup
price 7.5 recovers it through 7.5 / 1.5. -/
theorem C4_witness :
    ((3 : ℚ) + 4 / max (2 : ℚ) 1) / (1 - 50 / 100) * (1 - 50 / 100)
      = (price_with_margin 3 4 2 50 "Revenue margin").2 ∧
    ((3 : ℚ) + 4 / max (2 : ℚ) 1) * (1 + 50 / 100) / (1 + 50 / 100)
      = (price_with_margin 3 4 2 50 "Markup on cost").2 := by
  have hz : ¬((1 : ℚ) - 50 / 100 ≤ 0) := by norm_num
  have hp1 : (price_with_margin 3 4 2 50 "Revenue margin").1
      = some (((3 : ℚ) + 4 / max (2 : ℚ) 1) / (1 - 50 / 100)) := by
    simp [price_with_margin, hz]
  have hp2 : (price_with_margin 3 4 2 50 "Markup on cost").1
      = some (((3 : ℚ) + 4 / max (2 : ℚ) 1) * (1 + 50 / 100)) := by
    rw [price_with_margin, if_pos rfl]
  exact ⟨(C4_margin_inversion 3 4 2 50 (by norm_num)).1 (by norm_num) _ hp1,
         (C4_margin_inversion 3 4 2 50 (by norm_num)).2 (by norm_num) _ hp2⟩

/-! ## Claims about the pipeline -/

/-- C7: when the order's quantities sum to a non-positive value the
pipeline emits the warning and performs no pricing computation; and no
division by zero and no exception occurs anywhere downstream of the
quantity check: the pipeline, in which every source division is
guarded, returns a value for every input. -/
theorem C7_zero_quantity (cfg : Config) (lines : List OrderLine) :
    (pipeline cfg lines).isSome = true ∧
    (lines ≠ [] → totalQty lines ≤ 0 →
      pipeline cfg lines = some (.error "数量为0，无法计算。")) := by
  constructor
  · by_cases h0 : lines = []
    · simp [pipeline, h0]
    · by_cases h1 : totalQty lines ≤ 0
      · rw [pipeline_zero cfg lines h0 h1]; rfl
      · rw [pipeline_ok cfg lines h0 (lt_of_not_le h1)]; rfl
  · exact pipeline_zero cfg lines

/-- Witness for C7: a one-line order with quantity 0 yields the warning
and no crash. -/
theorem C7_witness :
    pipeline exCfg exC7Lines = some (.error "数量为0，无法计算。") ∧
    (pipeline exCfg exC7Lines).isSome = true := by
  refine ⟨(C7_zero_quantity exCfg exC7Lines).2 (by decide) ?_,
    (C7_zero_quantity exCfg exC7Lines).1⟩
  norm_num [totalQty, exC7Lines]

/-- C1 counterexample: in the order with quantities 1 and 3 and fixed
cost pool 8, the pipeline gives BOTH order-summary lines the same
per-unit fixed-cost allocation 2 = 8/4, and the breakeven table's
固定成本分摊/件 column is likewise 2 for both lines — lines with
different quantities do NOT receive different per-unit allocations. -/
theorem C1_counterexample :
    exC1Lines.map (fun l => l.qty) = [1, 3] ∧
    pipeline exCfg exC1Lines = some (.ok (outputPure exCfg exC1Lines)) ∧
    (outputPure exCfg exC1Lines).orderRows.map (fun r => r.allocPerUnit)
      = [2, 2] ∧
    (outputPure exCfg exC1Lines).breakevens.map (fun b => b.alloc)
      = [2, 2] := by
  have htq4 : totalQty exC1Lines = 4 := by norm_num [totalQty, exC1Lines]
  have htq := calcRows_qty_sum exCfg exC1Lines
  refine ⟨rfl, pipeline_ok exCfg exC1Lines (by decide) (by rw [htq4]; norm_num),
    ?_, ?_⟩
  · have hors : (outputPure exCfg exC1Lines).orderRows
        = (calcRows exCfg exC1Lines).map (orderRowPure exCfg (totalQty exC1Lines)) := by
      simp only [outputPure, htq]
    rw [hors, List.map_map, htq4]
    rw [calcRows_map exCfg exC1Lines _
      (fun l => exCfg.fixedTotal * (l.qty / max (4 : ℚ) 1)
        / max ((max (pyTrunc l.qty) 1 : ℤ) : ℚ) 1)
      (fun i l _ => by
        simp only [Function.comp_apply, orderRowPure_allocPerUnit, calcRow_qty])]
    simp only [exC1Lines, List.map_cons, List.map_nil]
    norm_num [exCfg, pyTrunc]
  · have hbrs : (outputPure exCfg exC1Lines).breakevens
        = (calcRows exCfg exC1Lines).map (breakevenRowPure exCfg (totalQty exC1Lines)) := by
      simp only [outputPure, htq]
    rw [hbrs, List.map_map, htq4]
    rw [calcRows_map exCfg exC1Lines _ (fun _ => exCfg.fixedTotal / 4)
      (fun i l _ => by simp only [Function.comp_apply, breakevenRowPure_alloc])]
    simp only [exC1Lines, List.map_cons, List.map_nil]
    norm_num [exCfg]

/-- C1 (amended): the fixed cost POOL is allocated to each line
proportionally to its quantity share — for total quantity ≥ 1 the
per-order fixed cost passed for line i is
fixed_cost_total * qty_i / total_qty — but the PER-UNIT fixed-cost
allocation is identical across lines, not different: for lines with
integer quantities ≥ 1 every line's per-unit allocation equals
fixed_cost_total / total_qty, the same constant the breakeven table
assigns to every line. -/
theorem C1_allocation (cfg : Config) (lines : List OrderLine)
    (h1 : 1 ≤ totalQty lines) :
    pipeline cfg lines = some (.ok (outputPure cfg lines)) ∧
    (outputPure cfg lines).orderRows.map (fun r => r.fixedShare)
      = lines.map (fun l => cfg.fixedTotal * l.qty / totalQty lines) ∧
    (outputPure cfg lines).breakevens.map (fun b => b.alloc)
      = lines.map (fun _ => cfg.fixedTotal / totalQty lines) ∧
    ((∀ l ∈ lines, 1 ≤ l.qty ∧ l.qty.den = 1) →
      (outputPure cfg lines).orderRows.map (fun r => r.allocPerUnit)
        = lines.map (fun _ => cfg.fixedTotal / totalQty lines)) := by
  have h1' : 0 < totalQty lines := lt_of_lt_of_le one_pos h1
  have h0 : lines ≠ [] := by
    intro h
    rw [h] at h1'
    simp [totalQty] at h1'
  have hmax : max (totalQty lines) 1 = totalQty lines := max_eq_left h1
  have htq := calcRows_qty_sum cfg lines
  have hors : (outputPure cfg lines).orderRows
      = (calcRows cfg lines).map (orderRowPure cfg (totalQty lines)) := by
    simp only [outputPure, htq]
  have hbrs : (outputPure cfg lines).breakevens
      = (calcRows cfg lines).map (breakevenRowPure cfg (totalQty lines)) := by
    simp only [outputPure, htq]
  refine ⟨pipeline_ok cfg lines h0 h1', ?_, ?_, ?_⟩
  · rw [hors, List.map_map]
    refine calcRows_map cfg lines _ _ (fun i l _ => ?_)
    simp only [Function.comp_apply, orderRowPure_fixedShare, calcRow_qty, hmax]
    rw [mul_div_assoc]
  · rw [hbrs, List.map_map]
    exact calcRows_map cfg lines _ _
      (fun i l _ => by simp only [Function.comp_apply, breakevenRowPure_alloc])
  · intro hint
    rw [hors, List.map_map]
    refine calcRows_map cfg lines _ _ (fun i l hl => ?_)
    obtain ⟨hq1, hqden⟩ := hint l hl
    obtain ⟨hcast, hge⟩ := pyTrunc_cast_of_int_ge_one l.qty hq1 hqden
    have hq0 : l.qty ≠ 0 := ne_of_gt (lt_of_lt_of_le one_pos hq1)
    have htq0 : totalQty lines ≠ 0 := ne_of_gt h1'
    simp only [Function.comp_apply, orderRowPure_allocPerUnit, calcRow_qty, hmax]
    rw [max_eq_left hge, hcast, max_eq_left hq1]
    field_simp
    ring

/-- Witness for C1 (amended) on the order with quantities 1 and 3 and
fixed pool 8: shares are 8·1/4 and 8·3/4 while each per-unit allocation
is the constant 8/4. -/
theorem C1_witness :
    pipeline exCfg exC1Lines = some (.ok (outputPure exCfg exC1Lines)) ∧
    (outputPure exCfg exC1Lines).orderRows.map (fun r => r.fixedShare)
      = exC1Lines.map (fun l => exCfg.fixedTotal * l.qty / totalQty exC1Lines) ∧
    (outputPure exCfg exC1Lines).breakevens.map (fun b => b.alloc)
      = exC1Lines.map (fun _ => exCfg.fixedTotal / totalQty exC1Lines) ∧
    (outputPure exCfg exC1Lines).orderRows.map (fun r => r.allocPerUnit)
      = exC1Lines.map (fun _ => exCfg.fixedTotal / totalQty exC1Lines) := by
  have h := C1_allocation exCfg exC1Lines (by norm_num [totalQty, exC1Lines])
  refine ⟨h.1, h.2.1, h.2.2.1, h.2.2.2 ?_⟩
  intro l hl
  simp only [exC1Lines, List.mem_cons, List.not_mem_nil, or_false] at hl
  rcases hl with rfl | rfl
  · exact ⟨by norm_num, by norm_num⟩
  · exact ⟨by norm_num, by norm_num⟩

/-- C9: for every priced order the total equals the sum of the rounded
products price × qty over exactly the lines whose price resolved; a
line's subtotal is round2(price × qty) when the price resolved and
missing otherwise; a line whose lookup failed (missing face price) gets
a missing exact price, hence a null displayed price and subtotal — not
zero — while the rows are a per-line map, so one failure does not
affect the other lines. -/
theorem C9_order_total (cfg : Config) (lines : List OrderLine)
    (h0 : lines ≠ []) (h1 : 0 < totalQty lines) :
    pipeline cfg lines = some (.ok (outputPure cfg lines)) ∧
    (outputPure cfg lines).orderRows
      = (calcRows cfg lines).map (orderRowPure cfg (totalQty lines)) ∧
    (outputPure cfg lines).total
      = ((outputPure cfg lines).orderRows.filterMap (fun r => r.subtotal)).sum ∧
    (∀ r ∈ (outputPure cfg lines).orderRows,
      r.subtotal = r.priceExact.map (fun p => pyRound 2 (p * r.qty)) ∧
      r.price = r.priceExact.map (fun p => pyRound 4 p) ∧
      (r.priceExact = none → r.price = none ∧ r.subtotal = none)) ∧
    (∀ c ∈ calcRows cfg lines, c.base = none →
      (orderRowPure cfg (totalQty lines) c).priceExact = none) := by
  have htq := calcRows_qty_sum cfg lines
  have hors : (outputPure cfg lines).orderRows
      = (calcRows cfg lines).map (orderRowPure cfg (totalQty lines)) := by
    simp only [outputPure, htq]
  have htot : (outputPure cfg lines).total
      = (((outputPure cfg lines).orderRows).map (fun r => r.subtotal.getD 0)).sum := by
    simp only [outputPure, htq]
  refine ⟨pipeline_ok cfg lines h0 h1, hors, ?_, ?_, ?_⟩
  · rw [htot, sum_getD_eq_sum_filterMap]
  · intro r hr
    rw [hors] at hr
    obtain ⟨c, _, rfl⟩ := List.mem_map.mp hr
    refine ⟨rfl, rfl, fun hnone => ?_⟩
    rw [orderRowPure_priceExact] at hnone
    constructor
    · show ((pwmOpt _ _ _ _ _).1).map _ = none
      rw [hnone]; rfl
    · show ((pwmOpt _ _ _ _ _).1).map _ = none
      rw [hnone]; rfl
  · intro c hc hbase
    rw [calcRows] at hc
    obtain ⟨p, _, rfl⟩ := List.mem_map.mp hc
    have hcost : (calcRow cfg p.1 p.2).cost = none := by
      rw [calcRow_cost, hbase]; rfl
    rw [orderRowPure_priceExact, hcost]
    rfl

/-- Witness for C9 on a two-line order whose first key is absent from
the sheet: exercised at the concrete configuration. -/
theorem C9_witness :
    pipeline exCfg exC9Lines = some (.ok (outputPure exCfg exC9Lines)) ∧
    (outputPure exCfg exC9Lines).orderRows
      = (calcRows exCfg exC9Lines).map (orderRowPure exCfg (totalQty exC9Lines)) ∧
    (outputPure exCfg exC9Lines).total
      = ((outputPure exCfg exC9Lines).orderRows.filterMap (fun r => r.subtotal)).sum ∧
    (∀ r ∈ (outputPure exCfg exC9Lines).orderRows,
      r.subtotal = r.priceExact.map (fun p => pyRound 2 (p * r.qty)) ∧
      r.price = r.priceExact.map (fun p => pyRound 4 p) ∧
      (r.priceExact = none → r.price = none ∧ r.subtotal = none)) ∧
    (∀ c ∈ calcRows exCfg exC9Lines, c.base = none →
      (orderRowPure exCfg (totalQty exC9Lines) c).priceExact = none) :=
  C9_order_total exCfg exC9Lines (by decide)
    (by norm_num [totalQty, exC9Lines])

/-! ## Claims about get_price -/

/-- C2 counterexample: the keys 4-(tab)01 and 4-01 differ only in
interior whitespace (they are equal after removing all whitespace), the
requested column exists and the stored row has a present price, yet
lookup fails: the fallback of get_price removes only space characters
(U+0020), not all whitespace, so the tab never matches and the result
is missing. -/
theorem C2_counterexample :
    specStripAllWhitespace ['4', '-', '\t', '0', '1']
      = specStripAllWhitespace "4-01".toList ∧
    "P" ∈ exC2Sheet.cols ∧
    (∃ r ∈ exC2Sheet.rows, r.model = "4-01".toList ∧
      (r.cells.lookup "P").isSome = true) ∧
    get_price exC2Sheet "P" ['4', '-', '\t', '0', '1'] = none := by
  refine ⟨by decide, by decide, ?_, by rfl⟩
  exact ⟨{ model := "4-01".toList, cells := [("P", some 10)] },
    List.mem_cons_self _ _, rfl, rfl⟩

/-- C2 (amended): the fallback tolerates space characters (U+0020)
only: for every sheet, existing column and key that matches no stored
key after stripping, but agrees with some stored key after removing
every space from both sides, get_price succeeds through the fallback
and returns a space-matching row's stored price cell. -/
theorem C2_space_fallback (sh : Sheet) (c : String) (k : List Char)
    (hc : c ∈ sh.cols)
    (hex : ∀ r ∈ sh.rows, pyStrip r.model ≠ pyStrip k)
    (hfb : ∃ r ∈ sh.rows, removeSpaces r.model = removeSpaces k) :
    ∃ r ∈ sh.rows, removeSpaces r.model = removeSpaces k ∧
      get_price sh c k = (r.cells.lookup c).bind id := by
  have hexact : sh.rows.filter (fun r => pyStrip r.model = pyStrip k) = [] := by
    refine List.filter_eq_nil_iff.mpr (fun r hr => ?_)
    simpa using hex r hr
  cases hcase : sh.rows.filter (fun r => removeSpaces r.model = removeSpaces k) with
  | nil =>
    exfalso
    obtain ⟨r, hr, hrm⟩ := hfb
    have hmem : r ∈ sh.rows.filter
        (fun r => removeSpaces r.model = removeSpaces k) :=
      List.mem_filter.mpr ⟨hr, by simpa using hrm⟩
    rw [hcase] at hmem
    cases hmem
  | cons r0 rest =>
    have hr0mem : r0 ∈ sh.rows.filter
        (fun r => removeSpaces r.model = removeSpaces k) := by
      rw [hcase]
      exact List.mem_cons_self _ _
    have hr0 := List.mem_filter.mp hr0mem
    refine ⟨r0, hr0.1, by simpa using hr0.2, ?_⟩
    simp only [get_price, hexact, hcase, List.isEmpty_nil, if_true, if_pos hc]

/-- Witness for C2 (amended): looking up the key 4- 01 (interior space)
in a sheet storing 4-01 succeeds through the fallback and returns the
stored cell. -/
theorem C2_witness :
    ∃ r ∈ exC2Sheet.rows,
      removeSpaces r.model = removeSpaces "4- 01".toList ∧
      get_price exC2Sheet "P" "4- 01".toList = (r.cells.lookup "P").bind id :=
  C2_space_fallback exC2Sheet "P" "4- 01".toList (by decide) (by decide)
    ⟨{ model := "4-01".toList, cells := [("P", some 10)] },
      List.mem_cons_self _ _, by decide⟩

/-- C6: get_price never raises and returns missing on a missing column
or when no row matches under the exact-trimmed or space-stripped
strategy; when several rows match, the first matching row in table
order supplies the value — under the exact strategy, or under the
fallback when the exact strategy matches nowhere. -/
theorem C6_lookup_safety (sh : Sheet) (c : String) (k : List Char) :
    (c ∉ sh.cols → get_price sh c k = none) ∧
    ((∀ r ∈ sh.rows, pyStrip r.model ≠ pyStrip k ∧
        removeSpaces r.model ≠ removeSpaces k) → get_price sh c k = none) ∧
    (∀ r0 rest,
      sh.rows.filter (fun r => pyStrip r.model = pyStrip k) = r0 :: rest →
      get_price sh c k
        = if c ∈ sh.cols then (r0.cells.lookup c).bind id else none) ∧
    (∀ r0 rest,
      sh.rows.filter (fun r => pyStrip r.model = pyStrip k) = [] →
      sh.rows.filter (fun r => removeSpaces r.model = removeSpaces k) = r0 :: rest →
      get_price sh c k
        = if c ∈ sh.cols then (r0.cells.lookup c).bind id else none) := by
  refine ⟨?_, ?_, ?_, ?_⟩
  · intro hc
    cases h1 : sh.rows.filter (fun r => pyStrip r.model = pyStrip k) with
    | nil =>
      cases h2 : sh.rows.filter
          (fun r => removeSpaces r.model = removeSpaces k) with
      | nil => simp only [get_price, h1, h2, List.isEmpty_nil, if_true]
      | cons r0 rest =>
        simp only [get_price, h1, h2, List.isEmpty_nil, if_true]
        exact if_neg hc
    | cons r0 rest =>
      simp only [get_price, h1, List.isEmpty_cons, if_neg (Bool.false_ne_true)]
      exact if_neg hc
  · intro hall
    have h1 : sh.rows.filter (fun r => pyStrip r.model = pyStrip k) = [] := by
      refine List.filter_eq_nil_iff.mpr (fun r hr => ?_)
      simpa using (hall r hr).1
    have h2 : sh.rows.filter
        (fun r => removeSpaces r.model = removeSpaces k) = [] := by
      refine List.filter_eq_nil_iff.mpr (fun r hr => ?_)
      simpa using (hall r hr).2
    simp only [get_price, h1, h2, List.isEmpty_nil, if_true]
  · intro r0 rest h1
    simp only [get_price, h1, List.isEmpty_cons, if_neg (Bool.false_ne_true)]
  · intro r0 rest h1 h2
    simp only [get_price, h1, h2, List.isEmpty_nil, if_true]

/-- Witness for C6: with two rows both keyed A (prices 1 and 2), lookup
returns the first row's price 1. -/
theorem C6_witness : get_price dupSheet "P" ['A'] = some 1 := by
  have h := (C6_lookup_safety dupSheet "P" ['A']).2.2.1
    { model := ['A'], cells := [("P", some 1)] }
    [{ model := ['A'], cells := [("P", some 2)] }] rfl
  rw [h, if_pos (by decide)]
  rfl

/-! ## Claim about coerce_numeric -/

/-- C5: numeric coercion is total into Option ℚ and never raises (the
caught ValueError is the missing marker): every numeric string built of
digit groups with thousands separators, an optional sign and fraction,
and trailing non-numeric characters coerces to its correct value; and
every string without digits — in particular one whose filtered residue
is empty or a bare sign or dot — coerces to missing. -/
theorem C5_coercion :
    (∀ (sgn : Bool) (groups : List (List Char)) (frac : Option (List Char))
        (junk : List Char),
      groups ≠ [] →
      (∀ g ∈ groups, g ≠ [] ∧ ∀ c ∈ g, c.isDigit = true) →
      (∀ c ∈ frac.getD [], c.isDigit = true) →
      (∀ c ∈ junk, c.isDigit = false ∧ c ≠ '.' ∧ c ≠ '-') →
      coerce_numeric (numWithJunk sgn groups frac junk)
        = some (numValue sgn groups frac)) ∧
    (∀ x : List Char, (∀ c ∈ x, c.isDigit = false) →
      coerce_numeric x = none) := by
  constructor
  · intro sgn groups frac junk hgne hg hf hj
    have hflat : ∀ c ∈ groups.flatten, c.isDigit = true := by
      intro c hc
      obtain ⟨g, hgmem, hcg⟩ := List.mem_flatten.mp hc
      exact (hg g hgmem).2 c hcg
    have hflatne : groups.flatten ≠ [] := by
      cases groups with
      | nil => exact absurd rfl hgne
      | cons g0 gs =>
        have hg0 := (hg g0 (List.mem_cons_self _ _)).1
        cases hg0c : g0 with
        | nil => exact absurd hg0c hg0
        | cons d dt => simp [hg0c]
    have hA : (if sgn then ['-'] else []).filter numP
        = (if sgn then ['-'] else []) := by
      cases sgn <;> rfl
    have hB : (withCommas groups).filter numP = groups.flatten :=
      filter_withCommas numP (by decide) groups
        (fun g hgm c hcg => by simp [numP, (hg g hgm).2 c hcg])
    have hC : (fracPart frac).filter numP = fracPart frac := by
      cases frac with
      | none => rfl
      | some f =>
        show ('.' :: f).filter numP = '.' :: f
        rw [List.filter_cons]
        simp only [show numP '.' = true from rfl, if_true]
        rw [List.filter_eq_self.mpr (fun c hcf => by simp [numP, hf c hcf])]
    have hD : junk.filter numP = [] := by
      refine List.filter_eq_nil_iff.mpr (fun c hcj => ?_)
      obtain ⟨h1, h2, h3⟩ := hj c hcj
      simp [numP, h1, h2, h3]
    have hres : (numWithJunk sgn groups frac junk).filter numP
        = (if sgn then ['-'] else []) ++ groups.flatten ++ fracPart frac := by
      simp only [numWithJunk, List.filter_append]
      rw [hA, hB, hC, hD, List.append_nil]
    have hdig : ∃ c ∈ (numWithJunk sgn groups frac junk).filter numP,
        c.isDigit = true := by
      rw [hres]
      obtain ⟨d, hd⟩ := List.exists_mem_of_ne_nil groups.flatten hflatne
      exact ⟨d, by simp [List.mem_append, hd], hflat d hd⟩
    rw [coerce_residue, if_neg (ne_degenerate_of_digit _ hdig), hres]
    obtain ⟨d, ds, hds⟩ : ∃ d ds, groups.flatten = d :: ds := by
      cases hv : groups.flatten with
      | nil => exact absurd hv hflatne
      | cons d ds => exact ⟨d, ds, rfl⟩
    have hd_digit : d.isDigit = true :=
      hflat d (by rw [hds]; exact List.mem_cons_self _ _)
    have hd_ne : d ≠ '-' := by
      intro hdd
      rw [hdd] at hd_digit
      exact absurd hd_digit (by decide)
    have hflat_cons : ∀ c ∈ d :: ds, c.isDigit = true := by
      rw [← hds]; exact hflat
    cases sgn with
    | false =>
      rw [show (if (false : Bool) = true then ['-'] else ([] : List Char))
          = [] from rfl, List.nil_append]
      cases frac with
      | none =>
        rw [show fracPart none = ([] : List Char) from rfl,
          List.append_nil, hds, pyFloat_cons_of_ne d ds hd_ne,
          pyFloatCore_int (d :: ds) hflat_cons (List.cons_ne_nil d ds), ← hds]
        rfl
      | some f =>
        rw [show fracPart (some f) = '.' :: f from rfl,
          hds, List.cons_append, pyFloat_cons_of_ne d _ hd_ne,
          ← List.cons_append,
          pyFloatCore_frac (d :: ds) f hflat_cons hf (List.cons_ne_nil d ds),
          ← hds]
        rfl
    | true =>
      rw [show (if (true : Bool) = true then ['-'] else ([] : List Char))
          = ['-'] from rfl]
      cases frac with
      | none =>
        rw [show fracPart none = ([] : List Char) from rfl, List.append_nil]
        rw [show (['-'] ++ groups.flatten : List Char)
            = '-' :: groups.flatten from rfl]
        show (pyFloatCore groups.flatten).map (fun q => -q) = _
        rw [pyFloatCore_int groups.flatten hflat hflatne]
        rfl
      | some f =>
        rw [show fracPart (some f) = '.' :: f from rfl]
        rw [show (['-'] ++ groups.flatten ++ '.' :: f : List Char)
            = '-' :: (groups.flatten ++ '.' :: f) from by
          rw [List.append_assoc]; rfl]
        show (pyFloatCore (groups.flatten ++ '.' :: f)).map (fun q => -q) = _
        rw [pyFloatCore_frac groups.flatten f hflat hf hflatne]
        rfl
  · intro x hx
    rw [coerce_residue]
    by_cases hdeg : x.filter numP = [] ∨ x.filter numP = ['-']
        ∨ x.filter numP = ['.']
    · rw [if_pos hdeg]
    · rw [if_neg hdeg]
      apply pyFloat_no_digit
      intro c hc
      have hcmem := List.mem_filter.mp hc
      have hcd := hx c hcmem.1
      have hnp := hcmem.2
      simp only [numP, hcd, Bool.false_or, Bool.or_eq_true, beq_iff_eq] at hnp
      exact hnp

/-- Witness for C5: the dirty numeric string 1,234.5kg coerces to
1234.5 and the non-numeric string abc coerces to missing. -/
theorem C5_witness :
    coerce_numeric "1,234.5kg".toList = some (2469 / 2) ∧
    coerce_numeric "abc".toList = none := by
  constructor
  · have hb : "1,234.5kg".toList
        = numWithJunk false [['1'], ['2', '3', '4']] (some ['5']) ['k', 'g'] := by
      decide
    have h1 := (C5_coercion).1 false [['1'], ['2', '3', '4']] (some ['5'])
      ['k', 'g'] (by decide) (by decide) (by decide) (by decide)
    rw [hb, h1,
      show numValue false [['1'], ['2', '3', '4']] (some ['5'])
        = (digitsVal ['1', '2', '3', '4'] : ℚ)
          + (digitsVal ['5'] : ℚ) / 10 ^ 1 from rfl]
    norm_num [show digitsVal ['1', '2', '3', '4'] = 1234 from by decide,
      show digitsVal ['5'] = 5 from by decide]
  · exact (C5_coercion).2 _ (by decide)

/-! ## Claim about tidy_sheet -/

theorem dropWhile_idem {α : Type} (p : α → Bool) (l : List α) :
    (l.dropWhile p).dropWhile p = l.dropWhile p := by
  induction l with
  | nil => rfl
  | cons a t ih =>
    rw [List.dropWhile_cons]
    by_cases hp : p a = true
    · rw [if_pos hp]; exact ih
    · rw [if_neg hp, List.dropWhile_cons, if_neg hp]

theorem dropWhile_head_not {α : Type} (p : α → Bool) (l : List α) :
    l.dropWhile p = [] ∨ ∃ c t, l.dropWhile p = c :: t ∧ p c = false := by
  induction l with
  | nil => exact Or.inl rfl
  | cons a t ih =>
    rw [List.dropWhile_cons]
    by_cases hp : p a = true
    · rw [if_pos hp]; exact ih
    · rw [if_neg hp]
      exact Or.inr ⟨a, t, rfl, Bool.eq_false_iff.mpr hp⟩

theorem dropTrailing_eq_append {α : Type} (p : α → Bool) (l : List α) :
    ∃ t, (l.reverse.dropWhile p).reverse ++ t = l := by
  refine ⟨(l.reverse.takeWhile p).reverse, ?_⟩
  rw [← List.reverse_append, List.takeWhile_append_dropWhile,
    List.reverse_reverse]

theorem pyStrip_idem (l : List Char) : pyStrip (pyStrip l) = pyStrip l := by
  have hm : pyStrip l
      = ((l.dropWhile pyIsSpace).reverse.dropWhile pyIsSpace).reverse := rfl
  have hdw_m : (pyStrip l).dropWhile pyIsSpace = pyStrip l := by
    rcases dropWhile_head_not pyIsSpace l with h | ⟨c, t, hct, hpc⟩
    · rw [hm, h]
      rfl
    · obtain ⟨t2, ht2⟩ := dropTrailing_eq_append pyIsSpace (l.dropWhile pyIsSpace)
      rw [hm]
      cases hD : ((l.dropWhile pyIsSpace).reverse.dropWhile pyIsSpace).reverse with
      | nil => rfl
      | cons x xs =>
        rw [hD, hct] at ht2
        have hx : x = c := by
          rw [List.cons_append] at ht2
          injection ht2 with h1 _
        rw [List.dropWhile_cons, hx, hpc]
        simp
  have hdR_m : ((pyStrip l).reverse.dropWhile pyIsSpace).reverse = pyStrip l := by
    conv_lhs => rw [hm, List.reverse_reverse, dropWhile_idem]
    exact hm.symm
  show (((pyStrip l).dropWhile pyIsSpace).reverse.dropWhile pyIsSpace).reverse
      = pyStrip l
  rw [hdw_m]
  exact hdR_m

/-- C8 counterexample: the raw table with header A and one all-missing
row loses every row and column in the dropna steps; indexing
df.columns[0] then raises in the source, so tidy_sheet produces no
table at all — in particular no table with first column MODEL. -/
theorem C8_counterexample :
    tidy_sheet { headers := [['A']], rows := [[Cell.missing]] } = none := rfl

/-- C8 (amended): tidy_sheet is not total — on an input left without
columns after dropping fully-empty rows and columns the source raises —
but whenever it returns a table: the first column is renamed to the
canonical key MODEL regardless of its original header (including
recognised synonyms and arbitrary labels), every key value is
whitespace-trimmed (a fixed point of stripping), and the non-key
columns hold exactly the numeric-or-missing coercions of the raw
cells.  The transform reads its argument only (the source copies the
frame first), so it is pure by construction in this embedding. -/
theorem C8_tidy (t : RawTable) (u : TidyTable) (h : tidy_sheet t = some u) :
    u.headers.headD [] = "MODEL".toList ∧
    (∀ k ∈ u.keys, pyStrip k = k) ∧
    u.valueRows = (croppedRows t).map (fun r => (r.drop 1).map coerce_cell) := by
  simp only [tidy_sheet] at h
  split at h
  · cases h
  · split at h
    · cases h
    · have hu := Option.some.inj h
      subst hu
      refine ⟨?_, ?_, rfl⟩
      · rw [List.map_cons, if_pos rfl]
        rfl
      · intro k hk
        obtain ⟨r, _, rfl⟩ := List.mem_map.mp hk
        exact pyStrip_idem _

/-- Witness for C8 on the raw sheet with synonym header 型号, padded
key and a dirty numeric cell: tidying succeeds, the first column is
MODEL, the key is stripped, and 1,234kg became the number 1234. -/
theorem C8_witness :
    exTidy.headers.headD [] = "MODEL".toList ∧
    (∀ k ∈ exTidy.keys, pyStrip k = k) ∧
    exTidy.valueRows
      = (croppedRows exRaw).map (fun r => (r.drop 1).map coerce_cell) :=
  C8_tidy exRaw exTidy (by rfl)

end FactoryPricing
